import Mathlib

/-!
Verification development for the db-seeder repository.

The Rust sources are shallowly embedded:
* `serde_json::Value`, restricted to the shapes the generators build
  (null, booleans, integers, strings), becomes `Value`; serde numbers are
  modelled as unbounded `Int` with `asI64`/`asU64` performing the 64-bit
  range checks the Rust accessors perform.
* `std::collections::HashMap` becomes an association list with unique keys;
  `insertA` mirrors `HashMap::insert` (replace in place, else append).
  HashMap iteration order is randomized per process in Rust; wherever a
  claim depends on it the order is passed in explicitly.
* Randomness (`rand::thread_rng`) becomes an oracle `Oracle.rand : Nat → Nat`
  consumed at an explicit cursor `i`; `gen_range` over a nonempty range
  maps a draw into the range with `%`, and panics (modelled by
  `Outcome.crash`) on an empty range, as the Rust function does.
* The faker / chrono library calls (words, sentence, datetime formatting,
  float Bernoulli) are abstracted as oracle outputs: no claim depends on
  the produced text.
* Fallible Rust code returning `AppResult` becomes `Outcome`, whose
  `crash` constructor stands for a Rust panic (out-of-bounds index,
  empty `gen_range`), distinct from a returned `AppError`.
-/

/-- serde_json::Value restricted to what the generators and pools hold. -/
inductive Value where
  | null
  | bool (b : Bool)
  | num (n : Int)
  | str (s : String)
deriving DecidableEq

def i64Min : Int := -(2 ^ 63)

def i64Max : Int := 2 ^ 63 - 1

/-- `serde_json::Value::as_i64`: some iff the number fits in a signed 64-bit
integer (booleans and strings give none, as in serde). -/
def Value.asI64 : Value → Option Int
  | .num n => if i64Min ≤ n ∧ n ≤ i64Max then some n else none
  | _ => none

/-- `serde_json::Value::as_u64`. -/
def Value.asU64 : Value → Option Nat
  | .num n => if 0 ≤ n ∧ n ≤ 2 ^ 64 - 1 then some n.toNat else none
  | _ => none

/-- `serde_json::Value::as_bool`. -/
def Value.asBool : Value → Option Bool
  | .bool b => some b
  | _ => none

/-- `serde_json::Value::as_str`. -/
def Value.asStr : Value → Option String
  | .str s => some s
  | _ => none

/-- `serde_json::Value::is_null`. -/
def Value.isNull : Value → Bool
  | .null => true
  | _ => false

/-- The `AppError` variants of src/error.rs that the embedded core can
produce (the I/O-wrapping variants carry library errors and are out of
scope). -/
inductive AppError where
  | Custom (msg : String)
  | DependencyNotFound (table : String)
  | CyclicDependency
  | UnknownGenerator (gen : String)
deriving DecidableEq

/-- Result of running embedded code: a value, a returned `AppError`, or a
Rust panic (`crash`). -/
inductive Outcome (α : Type) where
  | ok (a : α)
  | err (e : AppError)
  | crash
deriving DecidableEq

/-- Association-list model of `HashMap`: lookup of the first (unique) key. -/
def lookupA {α : Type} : List (String × α) → String → Option α
  | [], _ => none
  | (k', v) :: rest, k => if k' = k then some v else lookupA rest k

/-- `HashMap::insert`: replace the value of an existing key in place,
otherwise append the new binding. -/
def insertA {α : Type} : List (String × α) → String → α → List (String × α)
  | [], k, v => [(k, v)]
  | (k', v') :: rest, k, v =>
    if k' = k then (k, v) :: rest else (k', v') :: insertA rest k v

theorem lookupA_mem {α : Type} {m : List (String × α)} {k : String} {v : α}
    (h : lookupA m k = some v) : (k, v) ∈ m := by
  induction m with
  | nil => simp [lookupA] at h
  | cons p rest ih =>
    obtain ⟨k', v'⟩ := p
    by_cases hk : k' = k
    · subst hk
      simp [lookupA] at h
      simp [h]
    · simp [lookupA, hk] at h
      exact List.mem_cons_of_mem _ (ih h)

theorem lookupA_insertA {α : Type} (m : List (String × α)) (k k' : String) (v : α) :
    lookupA (insertA m k v) k' = if k = k' then some v else lookupA m k' := by
  induction m with
  | nil => by_cases h : k = k' <;> simp [insertA, lookupA, h]
  | cons p rest ih =>
    obtain ⟨k0, v0⟩ := p
    by_cases h0 : k0 = k
    · subst h0
      by_cases h : k0 = k' <;> simp [insertA, lookupA, h]
    · simp only [insertA, if_neg h0, lookupA]
      by_cases h : k0 = k'
      · subst h
        have : ¬ k = k0 := fun hc => h0 hc.symm
        simp [lookupA, this]
      · simp [lookupA, h, ih]

theorem mem_insertA {α : Type} {m : List (String × α)} {k : String} {v : α}
    {kv : String × α} (h : kv ∈ insertA m k v) : kv ∈ m ∨ kv = (k, v) := by
  induction m with
  | nil => simp [insertA] at h; simp [h]
  | cons p rest ih =>
    obtain ⟨k0, v0⟩ := p
    by_cases h0 : k0 = k
    · subst h0
      simp only [insertA, if_pos rfl, List.mem_cons, if_true, eq_self_iff_true] at h
      rcases h with h1 | h1
      · exact Or.inr h1
      · exact Or.inl (List.mem_cons_of_mem _ h1)
    · simp only [insertA, if_neg h0, List.mem_cons] at h
      rcases h with h1 | h1
      · exact Or.inl (by simp [h1])
      · rcases ih h1 with h' | h'
        · exact Or.inl (List.mem_cons_of_mem _ h')
        · exact Or.inr h'

/-- Boolean prefix test on character lists (Rust's internal matcher used by
`str::replace`/`str::contains`). -/
def startsWithL : List Char → List Char → Bool
  | [], _ => true
  | _ :: _, [] => false
  | a :: as, b :: bs => a == b && startsWithL as bs

/-- `str::contains(pat)`: pat occurs as a contiguous substring. -/
def containsSub (pat : List Char) : List Char → Bool
  | [] => startsWithL pat []
  | c :: rest => startsWithL pat (c :: rest) || containsSub pat rest

/-- One left-to-right non-overlapping pass of `str::replace`, with fuel for
structural recursion; `fuel = s.length` always suffices because a match
consumes at least one character (the pattern is nonempty at every call
site: `"\x7b" ++ key ++ "\x7d"` and the random-digits token). -/
def replaceAllFuel (pat rep : List Char) : Nat → List Char → List Char
  | 0, s => s
  | _ + 1, [] => []
  | f + 1, c :: rest =>
    if !pat.isEmpty && startsWithL pat (c :: rest) then
      rep ++ replaceAllFuel pat rep f (List.drop pat.length (c :: rest))
    else
      c :: replaceAllFuel pat rep f rest

/-- `str::replace(pat, rep)`. -/
def replaceAll (s pat rep : String) : String :=
  ⟨replaceAllFuel pat.data rep.data s.data.length s.data⟩

/-- Decimal digit character for `d % 10`. -/
def digitChar (d : Nat) : Char :=
  match d % 10 with
  | 0 => '0' | 1 => '1' | 2 => '2' | 3 => '3' | 4 => '4'
  | 5 => '5' | 6 => '6' | 7 => '7' | 8 => '8' | _ => '9'

/-- Rust's `format!("\x7b:04\x7d", n)` for `n < 10000` (the only use site
draws `n` from `gen_range(1000..9999)`, so this covers every reachable
call): the four decimal digits, zero-padded. -/
def fourDigits (n : Nat) : String :=
  ⟨[digitChar (n / 1000), digitChar (n / 100), digitChar (n / 10), digitChar n]⟩

/-- Digits-only parse of a nonempty character list (helper for `parseI64`). -/
def digitsVal (cs : List Char) : Option Nat :=
  if cs.isEmpty then none
  else if cs.all Char.isDigit then
    some (cs.foldl (fun a c => a * 10 + (c.toNat - 48)) 0)
  else none

/-- Rust's `str::parse::<i64>()`: optional sign, at least one digit, all
digits, and the value must fit in a signed 64-bit integer. -/
def parseI64 (s : String) : Option Int :=
  let core : Option Int :=
    match s.data with
    | '+' :: rest => (digitsVal rest).map (fun n => (n : Int))
    | '-' :: rest => (digitsVal rest).map (fun n => -(n : Int))
    | cs => (digitsVal cs).map (fun n => (n : Int))
  core.bind (fun n => if i64Min ≤ n ∧ n ≤ i64Max then some n else none)

/-- The 62 characters `rand::distributions::Alphanumeric` samples from;
a raw draw is mapped into the set by reduction mod 62. -/
def alnumChars : List Char :=
  "ABCDEFGHIJKLMNOPQRSTUVWXYZabcdefghijklmnopqrstuvwxyz0123456789".data

def alnumChar (k : Nat) : Char := alnumChars.getD (k % 62) 'A'

/-- src/gemini_analyzer.rs: `FieldTemplate`. -/
structure FieldTemplate where
  column_name : String
  generator : String
  params : List (String × Value)
deriving DecidableEq

/-- src/gemini_analyzer.rs: `EntityTemplate`. -/
structure EntityTemplate where
  entity_name : String
  target_table : String
  fields : List FieldTemplate
deriving DecidableEq

/-- src/gemini_analyzer.rs: `ArchitecturalPlan` (the `data_pools` member
only drives the external pool-filling round trip; the resolved pools are
inputs to the core, per the external-interface contract). -/
structure ArchitecturalPlan where
  theme : String
  entity_templates : List EntityTemplate
deriving DecidableEq

/-- src/db.rs: `ColumnSchema`. -/
structure ColumnSchema where
  name : String
  data_type : String
  is_nullable : Bool
  column_default : Option String
deriving DecidableEq

/-- src/db.rs: `TableSchema`. -/
structure TableSchema where
  name : String
  columns : List ColumnSchema
  primary_key_column : Option String
deriving DecidableEq

/-- src/db.rs: `ForeignKey`. -/
structure ForeignKey where
  from_table : String
  from_column : String
  to_table : String
  to_column : String
deriving DecidableEq

/-- src/db.rs: `DbSchema`. -/
structure DbSchema where
  tables : List (String × TableSchema)
  foreign_keys : List ForeignKey
deriving DecidableEq

/-- src/config.rs: `SeedingTask` (table name and requested row count). -/
structure SeedingTask where
  table : String
  rows : Nat
deriving DecidableEq

/-- src/entity_generator.rs: `DataPools`. -/
abbrev DataPools := List (String × List Value)

/-- src/entity_generator.rs: `GeneratedEntity` (HashMap modelled as an
association list in insertion order). -/
abbrev GeneratedEntity := List (String × Value)

/-- External nondeterminism of one run: the thread rng (`rand`, consumed at
an explicit cursor), the faker/chrono library text (no claim reads it),
and the database's RETURNING values keyed by global row index. -/
structure Oracle where
  rand : Nat → Nat
  fakerWords : Nat → Nat → Nat → String
  fakerSentence : Nat → Nat → Nat → String
  fakerDatetime : String → String → Nat → String
  randBool : Nat → Bool
  dbStr : Nat → String
  dbInt : Nat → Int

/-- One arm of the generator `match` in `EntityGenerator::generate_entity`
(src/entity_generator.rs lines 31-123), evaluated against the partial row
`entity`, the value pools and the primary-key pools, at rng cursor `i`.
Returns the produced value and the advanced cursor. -/
def evalField (field : FieldTemplate) (pools allPks : DataPools)
    (entity : GeneratedEntity) (o : Oracle) (i : Nat) : Outcome (Value × Nat) :=
  if field.generator = "pk_hash" then
    let length := ((lookupA field.params "length").bind Value.asU64).getD 20
    .ok (.str ⟨(List.range length).map (fun j => alnumChar (o.rand (i + j)))⟩, i + length)
  else if field.generator = "from_pool" then
    match (lookupA field.params "pool_name").bind Value.asStr with
    | none => .err (.Custom "pool_name не вказано для генератора from_pool")
    | some poolName =>
      match lookupA pools poolName with
      | none => .err (.Custom ("Пул даних не знайдено: " ++ poolName))
      | some pool =>
        if h : pool.length = 0 then
          .crash
        else
          .ok (pool.get ⟨o.rand i % pool.length, Nat.mod_lt _ (Nat.pos_of_ne_zero h)⟩, i + 1)
  else if field.generator = "template" then
    match (lookupA field.params "format").bind Value.asStr with
    | none => .err (.Custom "format не вказано для template")
    | some fmt =>
      let r0 := entity.foldl (fun acc kv =>
        let valStr := match kv.2 with
          | .str s => s
          | .num n => toString n
          | _ => ""
        if valStr = "" then acc
        else replaceAll acc ("\x7b" ++ kv.1 ++ "\x7d") valStr) fmt
      if containsSub "\x7brandom_digits:".data r0.data then
        let num := 1000 + o.rand i % 8999
        .ok (.str (replaceAll r0 "\x7brandom_digits:4\x7d" (fourDigits num)), i + 1)
      else
        .ok (.str r0, i)
  else if field.generator = "fk" then
    match (lookupA field.params "references").bind Value.asStr with
    | none => .err (.Custom "references не вказано для fk")
    | some parentTable =>
      match lookupA allPks parentTable with
      | some pkPool =>
        if h : pkPool.length = 0 then
          .ok (.null, i)
        else
          .ok (pkPool.get ⟨o.rand i % pkPool.length, Nat.mod_lt _ (Nat.pos_of_ne_zero h)⟩, i + 1)
      | none => .err (.DependencyNotFound parentTable)
  else if field.generator = "words" then
    let min := ((lookupA field.params "min").bind Value.asU64).getD 2
    let max := ((lookupA field.params "max").bind Value.asU64).getD 5
    .ok (.str (o.fakerWords min max i), i + 1)
  else if field.generator = "number_range" then
    let min := ((lookupA field.params "min").bind Value.asI64).getD 0
    let max := ((lookupA field.params "max").bind Value.asI64).getD 100
    if min > max then
      .crash
    else
      .ok (.num (min + (o.rand i : Int) % (max - min + 1)), i + 1)
  else if field.generator = "boolean" then
    .ok (.bool (o.randBool i), i + 1)
  else if field.generator = "sentence" then
    let min := ((lookupA field.params "min").bind Value.asU64).getD 5
    let max := ((lookupA field.params "max").bind Value.asU64).getD 10
    .ok (.str (o.fakerSentence min max i), i + 1)
  else if field.generator = "datetime_range" then
    let startStr := ((lookupA field.params "start").bind Value.asStr).getD "2020-01-01"
    let endStr := ((lookupA field.params "end").bind Value.asStr).getD "2024-01-01"
    .ok (.str (o.fakerDatetime startStr endStr i), i + 1)
  else
    .err (.UnknownGenerator field.generator)

/-- The field loop of `EntityGenerator::generate_entity`: evaluate fields in
declared order, inserting each non-null value under its column name. -/
def generateEntityGo (pools allPks : DataPools) (o : Oracle) :
    List FieldTemplate → GeneratedEntity → Nat → Outcome (GeneratedEntity × Nat)
  | [], entity, i => .ok (entity, i)
  | field :: rest, entity, i =>
    match evalField field pools allPks entity o i with
    | .err e => .err e
    | .crash => .crash
    | .ok (v, i') =>
      let entity' := if v.isNull then entity else insertA entity field.column_name v
      generateEntityGo pools allPks o rest entity' i'

/-- `EntityGenerator::generate_entity`, starting from the empty row at rng
cursor `i`. -/
def generate_entity (fields : List FieldTemplate) (pools allPks : DataPools)
    (o : Oracle) (i : Nat) : Outcome (GeneratedEntity × Nat) :=
  generateEntityGo pools allPks o fields [] i

/-- A value as bound to an sqlx query placeholder in `Seeder::seed_table`
(src/seeder.rs lines 178-225): a 64-bit integer bind, a boolean bind, a
text bind (relied upon by the SQL-side casts), or a generic structured
bind for every other column type. -/
inductive Bound where
  | int (n : Int)
  | bool (b : Bool)
  | text (s : String)
  | raw (v : Value)
deriving DecidableEq

/-- The integer coercion of src/seeder.rs lines 185-196: `as_i64`, then
bool to 1/0, then string parse defaulting to 0, then 0. -/
def coerceInt (v : Value) : Int :=
  match v.asI64 with
  | some n => n
  | none =>
    match v.asBool with
    | some b => if b then 1 else 0
    | none =>
      match v.asStr with
      | some s => (parseI64 s).getD 0
      | none => 0

/-- The boolean coercion of src/seeder.rs lines 198-209. -/
def coerceBool (v : Value) : Bool :=
  match v.asBool with
  | some b => b
  | none =>
    match v.asI64 with
    | some n => decide (n ≠ 0)
    | none =>
      match v.asStr with
      | some s => s == "true" || s == "1"
      | none => false

def intTypes : List String := ["integer", "bigint", "smallint", "int4"]

def textCastTypes : List String :=
  ["character varying", "text", "varchar", "uuid",
   "timestamp with time zone", "timestamp without time zone", "date"]

/-- The per-column bind dispatch of src/seeder.rs lines 183-220, keyed on
the destination column's declared `data_type`. -/
def bindValue (dataType : String) (v : Value) : Bound :=
  if dataType ∈ intTypes then .int (coerceInt v)
  else if dataType = "boolean" then .bool (coerceBool v)
  else if dataType ∈ textCastTypes then .text ((v.asStr).getD "")
  else .raw v

/-- One issued INSERT: target table, column list (the generated entity's
keys), bound values, and the RETURNING column when the table has a
recognized primary key. -/
structure InsertStmt where
  table : String
  columns : List String
  values : List Bound
  returningPk : Option String
deriving DecidableEq

/-- Building the INSERT for one generated row (src/seeder.rs lines 153-225):
columns are the entity's keys; each value is bound according to the
destination column's schema, or as-is when the column has no schema row. -/
def mkInsert (tbl : TableSchema) (target : String) (e : GeneratedEntity) : InsertStmt :=
  { table := target
    columns := e.map Prod.fst
    values := e.map (fun kv =>
      match tbl.columns.find? (fun c => c.name == kv.1) with
      | some cs => bindValue cs.data_type kv.2
      | none => .raw kv.2)
    returningPk := tbl.primary_key_column }

/-- Reading back the RETURNING primary key, dispatched on the PK column's
declared type (src/seeder.rs lines 233-247); `row` is the global insert
index used to key the database oracle. -/
def pkReadBack (o : Oracle) (row : Nat) (dataType : String) : Outcome Value :=
  if dataType ∈ (["character varying", "text", "varchar", "uuid"] : List String) then
    .ok (.str (o.dbStr row))
  else if dataType ∈ (["integer", "smallint"] : List String) then
    .ok (.num (o.dbInt row))
  else if dataType = "bigint" then
    .ok (.num (o.dbInt row))
  else
    .err (.Custom ("Непідтримуваний тип даних для первинного ключа: " ++ dataType))

/-- The row loop of `Seeder::seed_table` (src/seeder.rs lines 148-254):
per row, merge the accumulated pk pools with this table's partial pool,
generate the entity, build the INSERT, and capture the returned primary
key when the table has one. State: rows left, pks captured so far,
inserts issued so far, rng cursor, global row index.

The database's verdict on each issued statement is not modelled: the
sqlx `execute`/`fetch_one` calls can surface an `AppError::Db` (rolling
back the transaction), and this model covers the runs in which every
issued INSERT is accepted by the database. Statements about failing or
rejected statements are out of the model's scope, so no theorem below
may rest on the database accepting a statement it would reject. -/
def seedRows (tbl : TableSchema) (target : String) (fields : List FieldTemplate)
    (pools prevPks : DataPools) (o : Oracle) :
    Nat → List Value → List InsertStmt → Nat → Nat →
    Outcome (List Value × List InsertStmt × Nat × Nat)
  | 0, pks, ins, i, row => .ok (pks, ins, i, row)
  | n + 1, pks, ins, i, row =>
    let avail := insertA prevPks target pks
    match generateEntityGo pools avail o fields [] i with
    | .err e => .err e
    | .crash => .crash
    | .ok (entity, i') =>
      let stmt := mkInsert tbl target entity
      match tbl.primary_key_column with
      | some pkName =>
        match tbl.columns.find? (fun c => c.name == pkName) with
        | none => .err (.Custom ("Не знайдено схему для PK колонки " ++ pkName))
        | some pkCol =>
          match pkReadBack o row pkCol.data_type with
          | .err e => .err e
          | .crash => .crash
          | .ok pkVal =>
            seedRows tbl target fields pools prevPks o n
              (pks ++ [pkVal]) (ins ++ [stmt]) i' (row + 1)
      | none => seedRows tbl target fields pools prevPks o n pks (ins ++ [stmt]) i' (row + 1)

/-- `Seeder::seed_table`: look up the table schema, then run the row loop
inside one transaction (an error discards the in-flight inserts, matching
the rollback). -/
def seed_table (schema : DbSchema) (task : SeedingTask) (template : EntityTemplate)
    (pools prevPks : DataPools) (o : Oracle) (i row : Nat) :
    Outcome (List Value × List InsertStmt × Nat × Nat) :=
  match lookupA schema.tables template.target_table with
  | none => .err (.Custom ("Схема для таблиці не знайдена: " ++ template.target_table))
  | some tbl => seedRows tbl template.target_table template.fields pools prevPks o task.rows [] [] i row

/-- The `entity_map` of `Seeder::build_plan_dependency_graph`
(src/seeder.rs lines 50-52): target table to entity name, later entries
overwriting earlier ones as `HashMap::collect` does. -/
def entityMap (plan : ArchitecturalPlan) : List (String × String) :=
  plan.entity_templates.foldl (fun m t => insertA m t.target_table t.entity_name) []

def entityFor (plan : ArchitecturalPlan) (table : String) : Option String :=
  lookupA (entityMap plan) table

/-- The edge set of the execution dependency graph (src/seeder.rs lines
58-62): one edge parent-entity to child-entity per foreign key whose two
endpoint tables are both mapped by the plan. `DiGraphMap` stores edges as
a set, so membership in this list is the graph's edge relation. -/
def planEdges (schema : DbSchema) (plan : ArchitecturalPlan) : List (String × String) :=
  schema.foreign_keys.filterMap (fun fk =>
    match entityFor plan fk.to_table, entityFor plan fk.from_table with
    | some parent, some child => some (parent, child)
    | _, _ => none)

def edgeMem (edges : List (String × String)) (p c : String) : Bool :=
  edges.any (fun e => e.1 == p && e.2 == c)

/-- Node `n` has no incoming edge from the remaining node set. -/
def noIncoming (edges : List (String × String)) (rem : List String) (n : String) : Bool :=
  rem.all (fun p => !(edgeMem edges p n))

/-- Kahn's-algorithm topological sort over the remaining nodes, picking the
first remaining node with no incoming edge (petgraph's `toposort` is the
library counterpart: it likewise fails exactly on a cycle, and its
tie-break among unconstrained nodes is likewise a function of the node
insertion order). Fuel is structural; `rem.length` suffices since every
step removes one node. -/
def kahnFuel (edges : List (String × String)) : Nat → List String → Option (List String)
  | _, [] => some []
  | 0, _ :: _ => none
  | f + 1, rem =>
    match rem.find? (noIncoming edges rem) with
    | none => none
    | some n => (kahnFuel edges f (rem.erase n)).map (n :: ·)

/-- `toposort` over the graph given by the node insertion order and the
edge set. -/
def toposortG (nodeOrder : List String) (edges : List (String × String)) :
    Option (List String) :=
  kahnFuel edges nodeOrder.length nodeOrder

/-- Boolean edge-path test: consecutive elements are edges. -/
def chainB (edges : List (String × String)) : List String → Bool
  | [] => true
  | [_] => true
  | a :: b :: r => edgeMem edges a b && chainB edges (b :: r)

/-- The outcome of one run: the issued-and-committed INSERT trace, the final
generated-primary-keys map, and the terminal status. -/
structure RunResult where
  inserts : List InsertStmt
  pks : DataPools
  status : Outcome Unit
deriving DecidableEq

/-- The entity loop of `Seeder::run` (src/seeder.rs lines 114-125): for each
entity in topological order, find its template and its task (skipping
silently when either is missing), seed the table, and record the captured
primary keys under the target table when any were produced. -/
def runEntities (schema : DbSchema) (planTasks : List SeedingTask)
    (plan : ArchitecturalPlan) (pools : DataPools) (o : Oracle) :
    List String → DataPools → List InsertStmt → Nat → Nat → RunResult
  | [], pks, ins, _, _ => { inserts := ins, pks := pks, status := .ok () }
  | n :: rest, pks, ins, i, row =>
    match plan.entity_templates.find? (fun e => e.entity_name == n) with
    | none => runEntities schema planTasks plan pools o rest pks ins i row
    | some tmpl =>
      match planTasks.find? (fun t => t.table == tmpl.target_table) with
      | none => runEntities schema planTasks plan pools o rest pks ins i row
      | some task =>
        match seed_table schema task tmpl pools pks o i row with
        | .err e => { inserts := ins, pks := pks, status := .err e }
        | .crash => { inserts := ins, pks := pks, status := .crash }
        | .ok (newPks, newIns, i', row') =>
          let pks' := if newPks.isEmpty then pks else insertA pks tmpl.target_table newPks
          runEntities schema planTasks plan pools o rest pks' (ins ++ newIns) i' row'

/-- The core of `Seeder::run` (src/seeder.rs lines 103-128), entered with
the already-acquired plan, tasks and materialized pools (plan and pool
acquisition are the external collaborator): build the dependency graph,
topologically sort it against the given node insertion order, abort with
`CyclicDependency` before any insert on failure, and otherwise seed the
entities in order. -/
def runCore (schema : DbSchema) (planTasks : List SeedingTask)
    (plan : ArchitecturalPlan) (pools : DataPools) (nodeOrder : List String)
    (o : Oracle) : RunResult :=
  match toposortG nodeOrder (planEdges schema plan) with
  | none => { inserts := [], pks := [], status := .err .CyclicDependency }
  | some sorted => runEntities schema planTasks plan pools o sorted [] [] 0 0

/-- Position of the first occurrence of `a` (length of the list if absent). -/
def idxOf (a : String) : List String → Nat
  | [] => 0
  | b :: l => if b = a then 0 else idxOf a l + 1

theorem idxOf_cons_self (a : String) (l : List String) : idxOf a (a :: l) = 0 := by
  simp [idxOf]

theorem idxOf_cons_ne (a b : String) (l : List String) (h : b ≠ a) :
    idxOf a (b :: l) = idxOf a l + 1 := by
  simp [idxOf, h]

theorem edgeMem_iff (edges : List (String × String)) (p c : String) :
    edgeMem edges p c = true ↔ (p, c) ∈ edges := by
  simp only [edgeMem, List.any_eq_true, Bool.and_eq_true, beq_iff_eq]
  constructor
  · rintro ⟨e, he, h1, h2⟩
    have : e = (p, c) := by
      obtain ⟨e1, e2⟩ := e
      simp only at h1 h2
      simp [h1, h2]
    exact this ▸ he
  · intro h
    exact ⟨(p, c), h, rfl, rfl⟩

theorem noIncoming_spec {edges : List (String × String)} {rem : List String}
    {n : String} (h : noIncoming edges rem n = true) :
    ∀ p ∈ rem, (p, n) ∉ edges := by
  intro p hp hmem
  have := List.all_eq_true.mp h p hp
  rw [Bool.not_eq_true', ← Bool.not_eq_true] at this
  exact this ((edgeMem_iff edges p n).mpr hmem)

theorem kahnFuel_perm (edges : List (String × String)) :
    ∀ f rem l, kahnFuel edges f rem = some l → l.Perm rem := by
  intro f
  induction f with
  | zero =>
    intro rem l h
    cases rem with
    | nil => simp [kahnFuel] at h; simp [← h]
    | cons a rs => simp [kahnFuel] at h
  | succ f ih =>
    intro rem l h
    cases rem with
    | nil => simp [kahnFuel] at h; simp [← h]
    | cons a rs =>
      simp only [kahnFuel] at h
      cases hf : (a :: rs).find? (noIncoming edges (a :: rs)) with
      | none => rw [hf] at h; simp at h
      | some n =>
        rw [hf] at h
        dsimp only at h
        cases hk : kahnFuel edges f ((a :: rs).erase n) with
        | none => rw [hk] at h; simp at h
        | some l' =>
          rw [hk] at h
          simp only [Option.map_some'] at h
          obtain rfl : n :: l' = l := by simpa using h
          have hn : n ∈ a :: rs := List.mem_of_find?_eq_some hf
          exact ((ih _ _ hk).cons n).trans (List.perm_cons_erase hn).symm

theorem kahnFuel_sorted (edges : List (String × String)) :
    ∀ f rem l, kahnFuel edges f rem = some l →
      ∀ p c, (p, c) ∈ edges → p ∈ rem → c ∈ rem → idxOf p l < idxOf c l := by
  intro f
  induction f with
  | zero =>
    intro rem l h p c _ hp _
    cases rem with
    | nil => cases hp
    | cons a rs => simp [kahnFuel] at h
  | succ f ih =>
    intro rem l h p c hpc hp hc
    cases rem with
    | nil => cases hp
    | cons a rs =>
      simp only [kahnFuel] at h
      cases hf : (a :: rs).find? (noIncoming edges (a :: rs)) with
      | none => rw [hf] at h; simp at h
      | some n =>
        rw [hf] at h
        dsimp only at h
        cases hk : kahnFuel edges f ((a :: rs).erase n) with
        | none => rw [hk] at h; simp at h
        | some l' =>
          rw [hk] at h
          simp only [Option.map_some'] at h
          obtain rfl : n :: l' = l := by simpa using h
          have hnoinc : noIncoming edges (a :: rs) n = true := List.find?_some hf
          by_cases hcn : c = n
          · subst hcn
            exact absurd hpc (noIncoming_spec hnoinc p hp)
          · by_cases hpn : p = n
            · subst hpn
              rw [idxOf_cons_self, idxOf_cons_ne c p l' (fun hpc' => hcn hpc'.symm)]
              exact Nat.succ_pos _
            · have hp' : p ∈ (a :: rs).erase n := (List.mem_erase_of_ne hpn).mpr hp
              have hc' : c ∈ (a :: rs).erase n := (List.mem_erase_of_ne hcn).mpr hc
              have := ih _ _ hk p c hpc hp' hc'
              rw [idxOf_cons_ne p n l' (fun h' => hpn h'.symm),
                idxOf_cons_ne c n l' (fun h' => hcn h'.symm)]
              omega

theorem chain_lt (edges : List (String × String)) (S l : List String)
    (hsorted : ∀ p c, (p, c) ∈ edges → p ∈ S → c ∈ S → idxOf p l < idxOf c l) :
    ∀ mid a b, a ∈ S → b ∈ S → (∀ x ∈ mid, x ∈ S) →
      chainB edges (a :: mid ++ [b]) = true → idxOf a l < idxOf b l := by
  intro mid
  induction mid with
  | nil =>
    intro a b ha hb _ hc
    simp only [List.nil_append, chainB, Bool.and_eq_true] at hc
    exact hsorted a b ((edgeMem_iff _ _ _).mp hc.1) ha hb
  | cons x mid' ih =>
    intro a b ha hb hmid hc
    simp only [List.cons_append, chainB, Bool.and_eq_true] at hc
    obtain ⟨h1, h2⟩ := hc
    have hx : x ∈ S := hmid x (List.mem_cons_self x mid')
    have ha1 := hsorted a x ((edgeMem_iff _ _ _).mp h1) ha hx
    have ha2 := ih x b hx hb (fun y hy => hmid y (List.mem_cons_of_mem _ hy)) h2
    omega

/-- A cycle among the graph's nodes makes the topological sort fail. -/
theorem toposortG_none_of_cycle (nodeOrder : List String)
    (edges : List (String × String)) (a : String) (mid : List String)
    (ha : a ∈ nodeOrder) (hmid : ∀ x ∈ mid, x ∈ nodeOrder)
    (hc : chainB edges (a :: mid ++ [a]) = true) :
    toposortG nodeOrder edges = none := by
  cases h : toposortG nodeOrder edges with
  | none => rfl
  | some l =>
    exfalso
    have hsorted := kahnFuel_sorted edges nodeOrder.length nodeOrder l h
    exact Nat.lt_irrefl _ (chain_lt edges nodeOrder l hsorted mid a a ha ha hmid hc)

/-- Edge-set characterization of the execution dependency graph: there is
an edge `parent → child` exactly when some schema foreign key has both its
referenced table mapped (to `parent`) and its referencing table mapped
(to `child`) by the plan. -/
theorem planEdges_mem (schema : DbSchema) (plan : ArchitecturalPlan) (p c : String) :
    (p, c) ∈ planEdges schema plan ↔
      ∃ fk ∈ schema.foreign_keys,
        entityFor plan fk.to_table = some p ∧ entityFor plan fk.from_table = some c := by
  simp only [planEdges, List.mem_filterMap]
  constructor
  · rintro ⟨fk, hfk, hmatch⟩
    refine ⟨fk, hfk, ?_⟩
    cases hto : entityFor plan fk.to_table with
    | none => rw [hto] at hmatch; simp at hmatch
    | some pp =>
      cases hfrom : entityFor plan fk.from_table with
      | none => rw [hto, hfrom] at hmatch; simp at hmatch
      | some cc =>
        rw [hto, hfrom] at hmatch
        simp only [Option.some.injEq, Prod.mk.injEq] at hmatch
        exact ⟨by rw [hmatch.1], by rw [hmatch.2]⟩
  · rintro ⟨fk, hfk, hto, hfrom⟩
    exact ⟨fk, hfk, by rw [hto, hfrom]⟩

theorem entityFor_mem_values {plan : ArchitecturalPlan} {t e : String}
    (h : entityFor plan t = some e) : e ∈ (entityMap plan).map Prod.snd :=
  List.mem_map.mpr ⟨(t, e), lookupA_mem h, rfl⟩

theorem planEdges_endpoints {schema : DbSchema} {plan : ArchitecturalPlan}
    {p c : String} (h : (p, c) ∈ planEdges schema plan) :
    p ∈ (entityMap plan).map Prod.snd ∧ c ∈ (entityMap plan).map Prod.snd := by
  obtain ⟨fk, _, hto, hfrom⟩ := (planEdges_mem schema plan p c).mp h
  exact ⟨entityFor_mem_values hto, entityFor_mem_values hfrom⟩

theorem chain_targets (edges : List (String × String)) :
    ∀ ys y, chainB edges (y :: ys) = true → ∀ x ∈ ys, ∃ w, (w, x) ∈ edges := by
  intro ys
  induction ys with
  | nil => intro y _ x hx; cases hx
  | cons z zs ih =>
    intro y hc x hx
    simp only [chainB, Bool.and_eq_true] at hc
    obtain ⟨h1, h2⟩ := hc
    rcases List.mem_cons.mp hx with rfl | hx'
    · exact ⟨y, (edgeMem_iff _ _ _).mp h1⟩
    · exact ih z h2 x hx'

theorem chain_head_source (edges : List (String × String)) (a : String)
    (mid : List String) (hc : chainB edges (a :: mid ++ [a]) = true) :
    ∃ w, (a, w) ∈ edges := by
  cases mid with
  | nil =>
    simp only [List.nil_append, chainB, Bool.and_eq_true] at hc
    exact ⟨a, (edgeMem_iff _ _ _).mp hc.1⟩
  | cons x mid' =>
    simp only [List.cons_append, chainB, Bool.and_eq_true] at hc
    exact ⟨x, (edgeMem_iff _ _ _).mp hc.1⟩

/-- A fixed instantiation of the run's external nondeterminism, used to
evaluate the model on concrete inputs. -/
def zeroOracle : Oracle :=
  { rand := fun _ => 0
    fakerWords := fun _ _ _ => "lorem ipsum"
    fakerSentence := fun _ _ _ => "Lorem ipsum dolor."
    fakerDatetime := fun _ _ _ => "2020-01-01T00:00:00+00:00"
    randBool := fun _ => true
    dbStr := fun k => "pk" ++ toString k
    dbInt := fun k => (k : Int) }

/-- C1: for every plan whose foreign-key-derived dependency graph over plan
entities contains a cycle, the run fails with the `CyclicDependency` error
and issues zero INSERT statements: the topological sort precedes every
write, so no row reaches any table. `nodeOrder` is the (randomized)
iteration order in which the entity map's values populate the graph; the
result holds for every such order. -/
theorem c1_cyclic_plan_aborts_before_any_insert
    (schema : DbSchema) (planTasks : List SeedingTask) (plan : ArchitecturalPlan)
    (pools : DataPools) (nodeOrder : List String) (o : Oracle)
    (hnodes : ∀ x, x ∈ nodeOrder ↔ x ∈ (entityMap plan).map Prod.snd)
    (hcyc : ∃ a mid, chainB (planEdges schema plan) (a :: mid ++ [a]) = true) :
    runCore schema planTasks plan pools nodeOrder o =
      { inserts := [], pks := [], status := .err .CyclicDependency } := by
  obtain ⟨a, mid, hc⟩ := hcyc
  have ha : a ∈ nodeOrder := by
    obtain ⟨w, hw⟩ := chain_head_source _ a mid hc
    exact (hnodes a).mpr (planEdges_endpoints hw).1
  have hmid : ∀ x ∈ mid, x ∈ nodeOrder := by
    intro x hx
    obtain ⟨w, hw⟩ := chain_targets _ (mid ++ [a]) a hc x (List.mem_append_left _ hx)
    exact (hnodes x).mpr (planEdges_endpoints hw).2
  have hnone := toposortG_none_of_cycle nodeOrder (planEdges schema plan) a mid ha hmid hc
  simp [runCore, hnone]

def c1Schema : DbSchema :=
  { tables := [("ta", { name := "ta", columns := [], primary_key_column := none }),
               ("tb", { name := "tb", columns := [], primary_key_column := none })]
    foreign_keys := [⟨"tb", "a_id", "ta", "id"⟩, ⟨"ta", "b_id", "tb", "id"⟩] }

def c1Plan : ArchitecturalPlan :=
  { theme := "demo"
    entity_templates := [⟨"A", "ta", []⟩, ⟨"B", "tb", []⟩] }

theorem c1_witness :
    runCore c1Schema [⟨"ta", 1⟩, ⟨"tb", 1⟩] c1Plan [] ["A", "B"] zeroOracle =
      { inserts := [], pks := [], status := .err .CyclicDependency } :=
  c1_cyclic_plan_aborts_before_any_insert c1Schema [⟨"ta", 1⟩, ⟨"tb", 1⟩] c1Plan []
    ["A", "B"] zeroOracle (fun _ => Iff.rfl) ⟨"A", ["B"], by decide⟩

/-- C2: for every acyclic plan, the execution dependency graph has exactly
the edges `parent-entity → child-entity` arising from schema foreign keys
whose two endpoint tables are both mapped by the plan (foreign keys
touching an unmapped table add none), and the topological order places
every edge's parent strictly before its child. -/
theorem c2_edges_characterized_and_order_respects_them
    (schema : DbSchema) (plan : ArchitecturalPlan) (nodeOrder order : List String)
    (hnodes : ∀ x, x ∈ nodeOrder ↔ x ∈ (entityMap plan).map Prod.snd)
    (hsort : toposortG nodeOrder (planEdges schema plan) = some order) :
    (∀ p c, (p, c) ∈ planEdges schema plan ↔
       ∃ fk ∈ schema.foreign_keys,
         entityFor plan fk.to_table = some p ∧ entityFor plan fk.from_table = some c) ∧
    (∀ p c, (p, c) ∈ planEdges schema plan → idxOf p order < idxOf c order) := by
  refine ⟨planEdges_mem schema plan, ?_⟩
  intro p c h
  have hep := planEdges_endpoints h
  exact kahnFuel_sorted _ _ _ _ hsort p c h ((hnodes p).mpr hep.1) ((hnodes c).mpr hep.2)

def c2Schema : DbSchema :=
  { tables := [("ta", { name := "ta", columns := [], primary_key_column := none }),
               ("tb", { name := "tb", columns := [], primary_key_column := none })]
    foreign_keys := [⟨"tb", "a_id", "ta", "id"⟩, ⟨"tc", "x_id", "ta", "id"⟩] }

def c2Plan : ArchitecturalPlan :=
  { theme := "demo"
    entity_templates := [⟨"A", "ta", []⟩, ⟨"B", "tb", []⟩] }

theorem c2_witness :
    toposortG ["A", "B"] (planEdges c2Schema c2Plan) = some ["A", "B"] ∧
    ("A", "B") ∈ planEdges c2Schema c2Plan ∧
    idxOf "A" ["A", "B"] < idxOf "B" ["A", "B"] :=
  ⟨by decide, by decide,
    (c2_edges_characterized_and_order_respects_them c2Schema c2Plan ["A", "B"] ["A", "B"]
      (fun _ => Iff.rfl) (by decide)).2 "A" "B" (by decide)⟩

/-- C3: evaluating an `fk` field with `references` parameter `T`: an
entirely absent pool for `T` is the error `DependencyNotFound T`; a present
but empty pool yields the null value (not an error); a nonempty pool
yields one of its elements. -/
theorem c3_fk_absent_empty_nonempty_pool
    (field : FieldTemplate) (pools allPks : DataPools) (entity : GeneratedEntity)
    (o : Oracle) (i : Nat) (T : String)
    (hgen : field.generator = "fk")
    (href : (lookupA field.params "references").bind Value.asStr = some T) :
    (lookupA allPks T = none →
      evalField field pools allPks entity o i = .err (.DependencyNotFound T)) ∧
    (lookupA allPks T = some [] →
      evalField field pools allPks entity o i = .ok (.null, i)) ∧
    (∀ pool, lookupA allPks T = some pool → pool ≠ [] →
      ∃ v ∈ pool, evalField field pools allPks entity o i = .ok (v, i + 1)) := by
  refine ⟨?_, ?_, ?_⟩
  · intro habs
    simp [evalField, hgen, href, habs]
  · intro hemp
    simp [evalField, hgen, href, hemp]
  · intro pool hp hne
    have hlen : ¬ pool.length = 0 := by simpa [List.length_eq_zero] using hne
    refine ⟨pool.get ⟨o.rand i % pool.length, Nat.mod_lt _ (Nat.pos_of_ne_zero hlen)⟩,
      List.get_mem _ _ _, ?_⟩
    simp [evalField, hgen, href, hp, hlen]

theorem c3_witness :
    lookupA ([("users", [Value.str "u1"])] : DataPools) "users" = some [Value.str "u1"] ∧
    ∃ v ∈ [Value.str "u1"],
      evalField ⟨"author_id", "fk", [("references", .str "users")]⟩ []
        [("users", [Value.str "u1"])] [] zeroOracle 0 = .ok (v, 1) :=
  ⟨by decide,
    (c3_fk_absent_empty_nonempty_pool ⟨"author_id", "fk", [("references", .str "users")]⟩
      [] [("users", [Value.str "u1"])] [] zeroOracle 0 "users" rfl rfl).2.2
      [Value.str "u1"] rfl (by decide)⟩

/-- C7: a `number_range` field with integer parameters `min ≤ max` yields an
integer within the inclusive range, and exactly `min` when `min = max`. -/
theorem c7_number_range_inclusive_bounds
    (field : FieldTemplate) (pools allPks : DataPools) (entity : GeneratedEntity)
    (o : Oracle) (i : Nat) (mn mx : Int)
    (hgen : field.generator = "number_range")
    (hmin : (lookupA field.params "min").bind Value.asI64 = some mn)
    (hmax : (lookupA field.params "max").bind Value.asI64 = some mx)
    (hle : mn ≤ mx) :
    ∃ v : Int, evalField field pools allPks entity o i = .ok (.num v, i + 1) ∧
      mn ≤ v ∧ v ≤ mx ∧ (mn = mx → v = mn) := by
  have hnotgt : ¬ mn > mx := not_lt.mpr hle
  have hne : mx - mn + 1 ≠ 0 := by omega
  have hpos : (0 : Int) < mx - mn + 1 := by omega
  refine ⟨mn + (o.rand i : Int) % (mx - mn + 1), ?_, ?_, ?_, ?_⟩
  · simp [evalField, hgen, hmin, hmax, hnotgt]
  · have := Int.emod_nonneg (o.rand i : Int) hne
    omega
  · have := Int.emod_lt_of_pos (o.rand i : Int) hpos
    omega
  · intro h
    subst h
    have h1 : mn - mn + 1 = 1 := by ring
    rw [h1, Int.emod_one, add_zero]

theorem c7_witness :
    ∃ v : Int,
      evalField ⟨"age", "number_range", [("min", .num 30), ("max", .num 30)]⟩ [] [] []
        zeroOracle 0 = .ok (.num v, 1) ∧ (30 : Int) ≤ v ∧ v ≤ 30 ∧ ((30 : Int) = 30 → v = 30) :=
  c7_number_range_inclusive_bounds ⟨"age", "number_range", [("min", .num 30), ("max", .num 30)]⟩
    [] [] [] zeroOracle 0 30 30 rfl (by decide) (by decide) le_rfl

/-- C9: when a `from_pool` field names a pool that exists but is empty, the
unguarded random index `pool[rng.gen_range(0..pool.len())]` is an
out-of-domain access — a panic, not a returned error — so `generate_entity`
is only total when every referenced pool is nonempty. -/
theorem c9_from_pool_empty_pool_is_panic
    (field : FieldTemplate) (rest : List FieldTemplate) (pools allPks : DataPools)
    (entity : GeneratedEntity) (o : Oracle) (i : Nat) (P : String)
    (hgen : field.generator = "from_pool")
    (hname : (lookupA field.params "pool_name").bind Value.asStr = some P)
    (hpool : lookupA pools P = some []) :
    evalField field pools allPks entity o i = .crash ∧
    (∀ e, evalField field pools allPks entity o i ≠ .err e) ∧
    generateEntityGo pools allPks o (field :: rest) entity i = .crash := by
  have h1 : evalField field pools allPks entity o i = .crash := by
    simp [evalField, hgen, hname, hpool]
  refine ⟨h1, ?_, ?_⟩
  · intro e he
    rw [h1] at he
    exact Outcome.noConfusion he
  · simp [generateEntityGo, h1]

theorem c9_witness :
    evalField ⟨"name", "from_pool", [("pool_name", .str "names")]⟩ [("names", [])] [] []
      zeroOracle 0 = .crash ∧
    (∀ e, evalField ⟨"name", "from_pool", [("pool_name", .str "names")]⟩ [("names", [])] [] []
      zeroOracle 0 ≠ .err e) ∧
    generateEntityGo [("names", [])] [] zeroOracle
      [⟨"name", "from_pool", [("pool_name", .str "names")]⟩] [] 0 = .crash :=
  c9_from_pool_empty_pool_is_panic ⟨"name", "from_pool", [("pool_name", .str "names")]⟩ []
    [("names", [])] [] [] zeroOracle 0 "names" rfl rfl rfl

theorem generateEntityGo_no_null (pools allPks : DataPools) (o : Oracle) :
    ∀ (fields : List FieldTemplate) (entity : GeneratedEntity) (i : Nat)
      (e : GeneratedEntity) (i' : Nat),
      (∀ kv ∈ entity, kv.2 ≠ .null) →
      generateEntityGo pools allPks o fields entity i = .ok (e, i') →
      ∀ kv ∈ e, kv.2 ≠ .null := by
  intro fields
  induction fields with
  | nil =>
    intro entity i e i' hinv h
    simp only [generateEntityGo, Outcome.ok.injEq, Prod.mk.injEq] at h
    exact h.1 ▸ hinv
  | cons f rest ih =>
    intro entity i e i' hinv h
    simp only [generateEntityGo] at h
    cases hev : evalField f pools allPks entity o i with
    | err e0 => rw [hev] at h; exact Outcome.noConfusion h
    | crash => rw [hev] at h; exact Outcome.noConfusion h
    | ok vi =>
      obtain ⟨v, i2⟩ := vi
      rw [hev] at h
      dsimp only at h
      by_cases hnull : v.isNull
      · rw [if_pos hnull] at h
        exact ih entity i2 e i' hinv h
      · rw [if_neg hnull] at h
        refine ih _ i2 e i' ?_ h
        intro kv hkv
        rcases mem_insertA hkv with hold | hnew
        · exact hinv kv hold
        · rw [hnew]
          intro hcontra
          dsimp only at hcontra
          rw [hcontra] at hnull
          exact hnull rfl

/-- C10: a successful `generate_entity` maps no column to null (a
null-yielding generator leaves its column out of the row), and the INSERT
built from the row lists exactly the row's columns, so a column whose
every generator yielded null is omitted from the column list. -/
theorem c10_no_null_and_columns_are_row_keys
    (fields : List FieldTemplate) (pools allPks : DataPools) (o : Oracle)
    (i : Nat) (e : GeneratedEntity) (i' : Nat)
    (h : generate_entity fields pools allPks o i = .ok (e, i')) :
    (∀ kv ∈ e, kv.2 ≠ .null) ∧
    (∀ tbl target k, k ∈ (mkInsert tbl target e).columns ↔ ∃ v, (k, v) ∈ e) := by
  constructor
  · exact generateEntityGo_no_null pools allPks o fields [] i e i' (by simp) h
  · intro tbl target k
    simp only [mkInsert, List.mem_map]
    constructor
    · rintro ⟨⟨k', v⟩, hm, rfl⟩
      exact ⟨v, hm⟩
    · rintro ⟨v, hm⟩
      exact ⟨(k, v), hm, rfl⟩

theorem c10_witness :
    (∀ kv ∈ ([] : GeneratedEntity), kv.2 ≠ Value.null) ∧
    (∀ tbl target k, k ∈ (mkInsert tbl target []).columns ↔ ∃ v, (k, v) ∈ ([] : GeneratedEntity)) :=
  c10_no_null_and_columns_are_row_keys
    [⟨"author_id", "fk", [("references", .str "users")]⟩] [] [("users", [])]
    zeroOracle 0 [] 0 (by decide)

theorem parseI64_in_range {s : String} {n : Int} (h : parseI64 s = some n) :
    i64Min ≤ n ∧ n ≤ i64Max := by
  simp only [parseI64, Option.bind_eq_some] at h
  obtain ⟨m, _, hm⟩ := h
  by_cases hr : i64Min ≤ m ∧ m ≤ i64Max
  · rw [if_pos hr] at hm
    cases hm
    exact hr
  · rw [if_neg hr] at hm
    cases hm

/-- C6: a value bound to a column whose declared type is one of the
recognized integer types is always a 64-bit integer: the number itself
when the value is an i64-representable number, 1/0 for booleans, the
parsed value (or 0) for strings, and 0 in every remaining case — the bind
is total, so integer coercion never fails a row. -/
theorem c6_integer_coercion_total_with_defaults
    (dt : String) (hdt : dt ∈ intTypes) (v : Value) :
    bindValue dt v = .int (coerceInt v) ∧
    (∀ n, v = .num n → i64Min ≤ n → n ≤ i64Max → coerceInt v = n) ∧
    (∀ b, v = .bool b → coerceInt v = if b then 1 else 0) ∧
    (∀ s, v = .str s → coerceInt v = (parseI64 s).getD 0) ∧
    (v = .null → coerceInt v = 0) ∧
    (i64Min ≤ coerceInt v ∧ coerceInt v ≤ i64Max) := by
  refine ⟨by simp [bindValue, hdt], ?_, ?_, ?_, ?_, ?_⟩
  · rintro n rfl h1 h2
    simp [coerceInt, Value.asI64, h1, h2]
  · rintro b rfl
    simp [coerceInt, Value.asI64, Value.asBool]
  · rintro s rfl
    simp [coerceInt, Value.asI64, Value.asBool, Value.asStr]
  · rintro rfl
    simp [coerceInt, Value.asI64, Value.asBool, Value.asStr]
  · cases v with
    | null => refine ⟨by decide, by decide⟩
    | bool b =>
      cases b <;> exact ⟨by decide, by decide⟩
    | num n =>
      by_cases hr : i64Min ≤ n ∧ n ≤ i64Max
      · simp only [coerceInt, Value.asI64, if_pos hr]
        exact hr
      · have : Value.asI64 (.num n) = none := by
          simp only [Value.asI64, ite_eq_right_iff]
          intro h
          exact absurd h hr
        simp only [coerceInt, this, Value.asBool, Value.asStr]
        exact ⟨by decide, by decide⟩
    | str s =>
      simp only [coerceInt, Value.asI64, Value.asBool, Value.asStr]
      cases hp : parseI64 s with
      | none => exact ⟨by decide, by decide⟩
      | some m => simpa using parseI64_in_range hp

theorem c6_witness :
    ("integer" ∈ intTypes) ∧
    bindValue "integer" (.str "42") = .int (coerceInt (.str "42")) ∧
    coerceInt (.str "42") = (parseI64 "42").getD 0 :=
  ⟨by decide,
    (c6_integer_coercion_total_with_defaults "integer" (by decide) (.str "42")).1,
    (c6_integer_coercion_total_with_defaults "integer" (by decide) (.str "42")).2.2.2.1 "42" rfl⟩

def c4Schema : DbSchema :=
  { tables := [("ta", { name := "ta", columns := [], primary_key_column := none }),
               ("tb", { name := "tb", columns := [], primary_key_column := none })]
    foreign_keys := [] }

def c4Plan : ArchitecturalPlan :=
  { theme := "demo"
    entity_templates := [⟨"A", "ta", []⟩, ⟨"B", "tb", []⟩] }

/-- C4 counterexample: the dependency graph is populated by iterating the
entity map's `HashMap::values()`, whose order Rust randomizes per process;
for the same plan and schema (two unconstrained entities, no foreign
keys), both `["A", "B"]` and `["B", "A"]` are iteration orders of the same
entity map, and the topological sort returns a different entity order for
each — so two runs over identical input need not agree on the tie-break. -/
theorem c4_counterexample :
    (["A", "B"] : List String).Perm ((entityMap c4Plan).map Prod.snd) ∧
    (["B", "A"] : List String).Perm ((entityMap c4Plan).map Prod.snd) ∧
    toposortG ["A", "B"] (planEdges c4Schema c4Plan) = some ["A", "B"] ∧
    toposortG ["B", "A"] (planEdges c4Schema c4Plan) = some ["B", "A"] ∧
    (["A", "B"] : List String) ≠ ["B", "A"] :=
  ⟨by decide, by decide, by decide, by decide, by decide⟩

/-- C4 amended: the topological sort is deterministic for a given graph
*and a given node-insertion order* — it is a pure function of the two, and
any successful sort is a permutation of the entities — but the insertion
order itself varies across runs (randomized HashMap iteration), so
mutually unconstrained entities may be ordered differently by two runs
over identical plan and schema. -/
theorem c4_amended_deterministic_given_insertion_order
    (nodeOrder : List String) (edges : List (String × String)) (l : List String)
    (h : toposortG nodeOrder edges = some l) :
    (∀ l2, toposortG nodeOrder edges = some l2 → l2 = l) ∧ l.Perm nodeOrder :=
  ⟨fun l2 h2 => by rw [h] at h2; exact (Option.some.inj h2.symm), kahnFuel_perm edges _ _ _ h⟩

theorem c4_witness :
    (∀ l2, toposortG ["A", "B"] (planEdges c4Schema c4Plan) = some l2 → l2 = ["A", "B"]) ∧
    (["A", "B"] : List String).Perm ["A", "B"] :=
  c4_amended_deterministic_given_insertion_order ["A", "B"] (planEdges c4Schema c4Plan)
    ["A", "B"] (by decide)

theorem startsWithL_refl (l : List Char) : startsWithL l l = true := by
  induction l with
  | nil => rfl
  | cons c cs ih => simp [startsWithL, ih]

theorem replaceAllFuel_nil (pat rep : List Char) (f : Nat) :
    replaceAllFuel pat rep f [] = [] := by
  cases f <;> simp [replaceAllFuel]

/-- Replacing a nonempty string by `rep` inside itself yields `rep`. -/
theorem replaceAll_self (pat rep : String) (h : pat ≠ "") :
    replaceAll pat pat rep = rep := by
  obtain ⟨cs⟩ := pat
  obtain ⟨rs⟩ := rep
  cases cs with
  | nil => exact absurd rfl h
  | cons c rest =>
    show String.mk (replaceAllFuel (c :: rest) rs (c :: rest).length (c :: rest)) = String.mk rs
    have hbody : replaceAllFuel (c :: rest) rs (c :: rest).length (c :: rest) = rs := by
      simp only [List.length_cons, replaceAllFuel]
      rw [if_pos]
      · rw [List.drop_succ_cons, List.drop_length, replaceAllFuel_nil, List.append_nil]
      · simp [startsWithL_refl]
    rw [hbody]

theorem containsSub_of_head_not_mem {c0 : Char} {pd s : List Char}
    (h : c0 ∉ s) : containsSub (c0 :: pd) s = false := by
  induction s with
  | nil => rfl
  | cons c rest ih =>
    have hc : (c0 == c) = false := by
      refine beq_eq_false_iff_ne.mpr ?_
      intro he
      exact h (he ▸ List.mem_cons_self c rest)
    have hrest : c0 ∉ rest := fun hm => h (List.mem_cons_of_mem _ hm)
    simp [containsSub, startsWithL, hc, ih hrest]

theorem digitChar_isDigit (d : Nat) : (digitChar d).isDigit = true := by
  unfold digitChar
  split <;> decide

/-- The `template` arm of `generate_entity`, spelled out: fold the row's
already-generated values over the format (skipping values that stringify
to the empty string), then replace the random-digits token when the
intermediate result contains its prefix. -/
theorem evalField_template_eq
    (field : FieldTemplate) (pools allPks : DataPools) (entity : GeneratedEntity)
    (o : Oracle) (i : Nat) (fmt : String)
    (hgen : field.generator = "template")
    (hfmt : (lookupA field.params "format").bind Value.asStr = some fmt) :
    evalField field pools allPks entity o i =
      (let r0 := entity.foldl (fun acc kv =>
          let valStr := match kv.2 with
            | .str s => s
            | .num n => toString n
            | _ => ""
          if valStr = "" then acc
          else replaceAll acc ("\x7b" ++ kv.1 ++ "\x7d") valStr) fmt
       if containsSub "\x7brandom_digits:".data r0.data then
         .ok (.str (replaceAll r0 "\x7brandom_digits:4\x7d" (fourDigits (1000 + o.rand i % 8999))),
           i + 1)
       else .ok (.str r0, i)) := by
  simp [evalField, hgen, hfmt]

/-- C5 counterexample: a column generated earlier with the empty string is
*not* substituted — the guard `if !val_str.is_empty()` skips it, so the
placeholder survives verbatim, contradicting "strings verbatim" for the
empty string. -/
theorem c5_counterexample :
    evalField ⟨"x", "template", [("format", .str "\x7ba\x7d")]⟩ [] []
      [("a", .str "")] zeroOracle 0 = .ok (.str "\x7ba\x7d", 0) ∧
    ("\x7ba\x7d" : String) ≠ "" :=
  ⟨by decide, by decide⟩

/-- C5 amended: each placeholder whose column was generated earlier is
replaced by the value's text when that text is nonempty (nonempty strings
verbatim, numbers as decimal text); values that stringify to the empty
string — the empty string itself, booleans, nulls — leave the placeholder
untouched. In particular the row `\x7bfirst_name: "Ann", age: 30\x7d`
formats to "Ann is 30", and a format equal to the random-digits token
becomes a 4-digit numeral in `[1000, 9998]`. -/
theorem c5_amended_template_substitution :
    (∀ (o : Oracle) (i : Nat),
      evalField ⟨"full", "template", [("format", .str "\x7bfirst_name\x7d is \x7bage\x7d")]⟩
        [] [] [("first_name", .str "Ann"), ("age", .num 30)] o i = .ok (.str "Ann is 30", i)) ∧
    (∀ (o : Oracle) (i : Nat), ∃ n, 1000 ≤ n ∧ n ≤ 9998 ∧
      evalField ⟨"code", "template", [("format", .str "\x7brandom_digits:4\x7d")]⟩ [] [] [] o i =
        .ok (.str (fourDigits n), i + 1) ∧
      (fourDigits n).length = 4 ∧ (∀ c ∈ (fourDigits n).data, c.isDigit)) ∧
    (∀ (k s : String) (o : Oracle) (i : Nat), s ≠ "" → (∀ c ∈ s.data, c ≠ '\x7b') →
      evalField ⟨"x", "template", [("format", .str ("\x7b" ++ k ++ "\x7d"))]⟩ [] []
        [(k, .str s)] o i = .ok (.str s, i)) := by
  refine ⟨fun o i => rfl, ?_, ?_⟩
  · intro o i
    refine ⟨1000 + o.rand i % 8999, Nat.le_add_right _ _, ?_, ?_, rfl, ?_⟩
    · have := Nat.mod_lt (o.rand i) (show 0 < 8999 by decide)
      omega
    · show Outcome.ok
        (Value.str (replaceAll "\x7brandom_digits:4\x7d" "\x7brandom_digits:4\x7d"
          (fourDigits (1000 + o.rand i % 8999))), i + 1) =
        .ok (.str (fourDigits (1000 + o.rand i % 8999)), i + 1)
      rw [replaceAll_self _ _ (by decide)]
    · intro c hc
      have hdata : (fourDigits (1000 + o.rand i % 8999)).data =
          [digitChar ((1000 + o.rand i % 8999) / 1000),
           digitChar ((1000 + o.rand i % 8999) / 100),
           digitChar ((1000 + o.rand i % 8999) / 10),
           digitChar (1000 + o.rand i % 8999)] := rfl
      rw [hdata] at hc
      simp only [List.mem_cons, List.not_mem_nil, or_false] at hc
      rcases hc with rfl | rfl | rfl | rfl <;> exact digitChar_isDigit _
  · intro k s o i hs hnb
    have hpat_ne : ("\x7b" ++ k ++ "\x7d" : String) ≠ "" := by
      intro h
      have hd := congrArg String.data h
      rw [String.data_append, String.data_append] at hd
      simp at hd
    have hsub := replaceAll_self ("\x7b" ++ k ++ "\x7d") s hpat_ne
    have hcont : containsSub "\x7brandom_digits:".data s.data = false := by
      have hform : "\x7brandom_digits:".data = '\x7b' :: "random_digits:".data := rfl
      rw [hform]
      exact containsSub_of_head_not_mem (fun hm => hnb '\x7b' hm rfl)
    rw [evalField_template_eq ⟨"x", "template", [("format", .str ("\x7b" ++ k ++ "\x7d"))]⟩
      [] [] [(k, .str s)] o i ("\x7b" ++ k ++ "\x7d") rfl rfl]
    simp only [List.foldl_cons, List.foldl_nil]
    rw [if_neg hs, hsub, hcont]
    simp

theorem c5_witness :
    evalField ⟨"x", "template", [("format", .str ("\x7b" ++ "k" ++ "\x7d"))]⟩ [] []
      [("k", .str "v")] zeroOracle 0 = .ok (.str "v", 0) :=
  c5_amended_template_substitution.2.2 "k" "v" zeroOracle 0 (by decide) (by decide)

/-- `T` has a recognized single-column primary key in the fetched schema. -/
def HasPkTable (schema : DbSchema) (T : String) : Prop :=
  ∃ ts, lookupA schema.tables T = some ts ∧ ts.primary_key_column.isSome

theorem seedRows_pks_of_no_pk (tbl : TableSchema) (target : String)
    (fields : List FieldTemplate) (pools prevPks : DataPools) (o : Oracle)
    (hnone : tbl.primary_key_column = none) :
    ∀ n pks ins i row pks' ins' i' row',
      seedRows tbl target fields pools prevPks o n pks ins i row = .ok (pks', ins', i', row') →
      pks' = pks := by
  intro n
  induction n with
  | zero =>
    intro pks ins i row pks' ins' i' row' h
    simp only [seedRows, Outcome.ok.injEq, Prod.mk.injEq] at h
    exact h.1.symm
  | succ n ih =>
    intro pks ins i row pks' ins' i' row' h
    simp only [seedRows] at h
    cases hg : generateEntityGo pools (insertA prevPks target pks) o fields [] i with
    | err e => rw [hg] at h; exact Outcome.noConfusion h
    | crash => rw [hg] at h; exact Outcome.noConfusion h
    | ok pr =>
      obtain ⟨entity, i2⟩ := pr
      rw [hg] at h
      dsimp only at h
      rw [hnone] at h
      exact ih _ _ _ _ _ _ _ _ h

theorem seed_table_pks_nonempty_has_pk
    (schema : DbSchema) (task : SeedingTask) (template : EntityTemplate)
    (pools prevPks : DataPools) (o : Oracle) (i row : Nat)
    (pks : List Value) (ins : List InsertStmt) (i' row' : Nat)
    (h : seed_table schema task template pools prevPks o i row = .ok (pks, ins, i', row'))
    (hne : pks ≠ []) :
    ∃ ts, lookupA schema.tables template.target_table = some ts ∧
      ts.primary_key_column.isSome := by
  simp only [seed_table] at h
  cases hl : lookupA schema.tables template.target_table with
  | none => rw [hl] at h; exact Outcome.noConfusion h
  | some tbl =>
    rw [hl] at h
    refine ⟨tbl, rfl, ?_⟩
    cases hpk : tbl.primary_key_column with
    | none =>
      exact absurd
        (seedRows_pks_of_no_pk tbl _ _ _ _ o hpk task.rows [] [] i row pks ins i' row' h) hne
    | some _ => rfl

theorem runEntities_pks_hasPk (schema : DbSchema) (planTasks : List SeedingTask)
    (plan : ArchitecturalPlan) (pools : DataPools) (o : Oracle) :
    ∀ (ents : List String) (pks : DataPools) (ins : List InsertStmt) (i row : Nat),
      (∀ T l, lookupA pks T = some l → HasPkTable schema T) →
      ∀ T l,
        lookupA (runEntities schema planTasks plan pools o ents pks ins i row).pks T = some l →
        HasPkTable schema T := by
  intro ents
  induction ents with
  | nil =>
    intro pks ins i row hinv T l h
    simp only [runEntities] at h
    exact hinv T l h
  | cons n rest ih =>
    intro pks ins i row hinv T l h
    simp only [runEntities] at h
    cases hf : plan.entity_templates.find? (fun e => e.entity_name == n) with
    | none => rw [hf] at h; exact ih pks ins i row hinv T l h
    | some tmpl =>
      rw [hf] at h
      dsimp only at h
      cases ht : planTasks.find? (fun t => t.table == tmpl.target_table) with
      | none => rw [ht] at h; exact ih pks ins i row hinv T l h
      | some task =>
        rw [ht] at h
        dsimp only at h
        cases hs : seed_table schema task tmpl pools pks o i row with
        | err e => rw [hs] at h; exact hinv T l h
        | crash => rw [hs] at h; exact hinv T l h
        | ok out =>
          obtain ⟨newPks, newIns, i2, row2⟩ := out
          rw [hs] at h
          dsimp only at h
          by_cases hemp : newPks.isEmpty = true
          · rw [if_pos hemp] at h
            exact ih _ _ _ _ hinv T l h
          · rw [if_neg hemp] at h
            refine ih _ _ _ _ ?_ T l h
            intro T' l' hl'
            rw [lookupA_insertA] at hl'
            by_cases hT : tmpl.target_table = T'
            · have hne : newPks ≠ [] := by
                intro hc
                rw [hc] at hemp
                exact hemp rfl
              obtain ⟨ts, hts, hpk⟩ := seed_table_pks_nonempty_has_pk schema task tmpl pools
                pks o i row newPks newIns i2 row2 hs hne
              exact ⟨ts, hT ▸ hts, hpk⟩
            · rw [if_neg hT] at hl'
              exact hinv T' l' hl'

def c8Schema : DbSchema :=
  { tables := [("t", { name := "t",
                       columns := [⟨"name", "text", false, none⟩,
                                   ⟨"parent_id", "text", true, none⟩],
                       primary_key_column := none })]
    foreign_keys := [] }

def c8Plan : ArchitecturalPlan :=
  { theme := "demo"
    entity_templates := [⟨"E", "t",
      [⟨"name", "template", [("format", .str "alpha")]⟩,
       ⟨"parent_id", "fk", [("references", .str "t")]⟩]⟩] }

/-- C8 counterexample: table `t` has no recognized primary key, and entity
`E` targets `t` itself while its `fk` field references `t` (a reference
the plan may declare even without a schema foreign key, so no cycle
arises). During seeding, `seed_table` merges a (necessarily empty)
partial pool for `t` into the available pools, so the `fk` evaluation
finds an empty pool and yields null — the second conjunct shows that
evaluation at exactly the state the row loop passes it — instead of
failing with `DependencyNotFound`. The null column is dropped and the row
keeps its `name` column, so the issued statement is an ordinary
single-column `INSERT INTO "t" ("name") VALUES ($1)` that the database
accepts, and the run commits with status ok: no `DependencyNotFound` is
raised anywhere, contradicting the claim's second half. -/
theorem c8_counterexample :
    (∃ ts, lookupA c8Schema.tables "t" = some ts ∧ ts.primary_key_column = none) ∧
    evalField ⟨"parent_id", "fk", [("references", .str "t")]⟩ [] (insertA [] "t" [])
      [("name", .str "alpha")] zeroOracle 0 = .ok (.null, 0) ∧
    runCore c8Schema [⟨"t", 1⟩] c8Plan [] ["E"] zeroOracle =
      { inserts := [{ table := "t", columns := ["name"], values := [.text "alpha"],
                      returningPk := none }],
        pks := [], status := .ok () } :=
  ⟨⟨_, rfl, rfl⟩, by decide, by decide⟩

/-- C8 amended: (a) throughout a run a table without a recognized
single-column primary key never appears as a key of the PrimaryKeyPool
map; (b) an `fk` field referencing such a table `T` fails with
`DependencyNotFound T` whenever it is evaluated while seeding an entity
whose target table is not `T` (the available pools are the accumulated
pool map — whose keys all have primary keys — plus the current target's
partial pool); (c) when the evaluating entity targets `T` itself, the
merged pool for `T` is present, and while it is empty the field yields
null — it neither fails nor receives a key. -/
theorem c8_amended_keyless_never_pooled
    (schema : DbSchema) (planTasks : List SeedingTask) (plan : ArchitecturalPlan)
    (pools : DataPools) (nodeOrder : List String) (o : Oracle) :
    (∀ T l, lookupA (runCore schema planTasks plan pools nodeOrder o).pks T = some l →
       HasPkTable schema T) ∧
    (∀ (field : FieldTemplate) (prevPks : DataPools) (pksSoFar : List Value)
       (target T : String) (entity : GeneratedEntity) (i : Nat),
       field.generator = "fk" →
       (lookupA field.params "references").bind Value.asStr = some T →
       (∀ T' l, lookupA prevPks T' = some l → HasPkTable schema T') →
       ¬ HasPkTable schema T → target ≠ T →
       evalField field pools (insertA prevPks target pksSoFar) entity o i =
         .err (.DependencyNotFound T)) ∧
    (∀ (field : FieldTemplate) (prevPks : DataPools) (T : String)
       (entity : GeneratedEntity) (i : Nat),
       field.generator = "fk" →
       (lookupA field.params "references").bind Value.asStr = some T →
       evalField field pools (insertA prevPks T []) entity o i = .ok (.null, i)) := by
  refine ⟨?_, ?_, ?_⟩
  · intro T l h
    simp only [runCore] at h
    cases hs : toposortG nodeOrder (planEdges schema plan) with
    | none =>
      rw [hs] at h
      dsimp only [lookupA] at h
      exact Option.noConfusion h
    | some sorted =>
      rw [hs] at h
      exact runEntities_pks_hasPk schema planTasks plan pools o sorted [] [] 0 0
        (fun T' l' hl' => by simp [lookupA] at hl') T l h
  · intro field prevPks pksSoFar target T entity i hgen href hinv hkeyless hne
    have havail : lookupA (insertA prevPks target pksSoFar) T = none := by
      rw [lookupA_insertA, if_neg hne]
      cases hl : lookupA prevPks T with
      | none => rfl
      | some l => exact absurd (hinv T l hl) hkeyless
    simp [evalField, hgen, href, havail]
  · intro field prevPks T entity i hgen href
    have havail : lookupA (insertA prevPks T []) T = some [] := by
      rw [lookupA_insertA, if_pos rfl]
    simp [evalField, hgen, href, havail]

theorem c8_witness :
    evalField ⟨"parent_id", "fk", [("references", .str "t")]⟩ []
      (insertA [] "other" []) [] zeroOracle 0 = .err (.DependencyNotFound "t") :=
  (c8_amended_keyless_never_pooled c8Schema [] c8Plan [] [] zeroOracle).2.1
    ⟨"parent_id", "fk", [("references", .str "t")]⟩ [] [] "other" "t" [] 0 rfl rfl
    (fun T' l hl => by simp [lookupA] at hl)
    (fun hcontra => by
      obtain ⟨ts, hts, hpk⟩ := hcontra
      have hts2 : (⟨"t", [⟨"name", "text", false, none⟩, ⟨"parent_id", "text", true, none⟩],
          none⟩ : TableSchema) = ts :=
        Option.some.inj hts
      rw [← hts2] at hpk
      simp at hpk)
    (by decide)
